import Mathlib

/-!
Shallow embedding of the text-analysis pipeline of `src/ExamHelper.js`
(the ExamHelper React component): key-term extraction, extractive
summarization, MCQ generation, Q&A generation, and the state handling of
`processDocument` / `handleFileUpload`.

Strings are modelled as `List Char` (JS strings are sequences of UTF-16
units; all inputs considered here are ASCII, where the two notions agree).
JS numbers appearing in sentence scores are modelled as `ℚ`: every
constant involved (3, 2, 1.5, 1, 0.25) is exactly representable as an
IEEE-754 double and the products/comparisons performed on the small
magnitudes arising here are exact, so rational arithmetic coincides with
the double arithmetic of the source.  `Array.prototype.sort` is required
to be stable by the ECMAScript specification (ES2019); a stable sort is
modelled by `List.insertionSort`, which Mathlib proves stable.
-/

namespace ExamHelper

/-- JS regular-expression class `\w` = `[A-Za-z0-9_]` (ASCII scope). -/
def isWordChar (c : Char) : Bool := c.isAlphanum || c == '_'

/-- JS regular-expression class `\s` (ASCII part: space, tab, newline,
carriage return, vertical tab, form feed). -/
def isSpaceChar (c : Char) : Bool :=
  c == ' ' || c == '\t' || c == '\n' || c == '\r' ||
  c == Char.ofNat 11 || c == Char.ofNat 12

/-- Sentence delimiters of the split regex `/[.!?]+/`. -/
def isSentenceDelim (c : Char) : Bool := c == '.' || c == '!' || c == '?'

/-- Core splitter: cut a list at every character satisfying `p`,
keeping empty pieces (as `String.prototype.split` does).  Splitting on a
single-character class and later discarding empty/whitespace-only pieces
is equivalent to splitting on runs (`/[.!?]+/`, `/\s+/`): runs only
produce extra empty pieces, which the subsequent filters discard. -/
def splitAux (p : Char → Bool) : List Char → List Char → List (List Char)
  | [], acc => [acc.reverse]
  | c :: cs, acc =>
    if p c then acc.reverse :: splitAux p cs [] else splitAux p cs (c :: acc)

/-- Split a list on every character satisfying `p`. -/
def splitOn1 (p : Char → Bool) (l : List Char) : List (List Char) :=
  splitAux p l []

/-- JS `String.prototype.trim` (ASCII whitespace scope). -/
def trimL (l : List Char) : List Char :=
  ((l.dropWhile isSpaceChar).reverse.dropWhile isSpaceChar).reverse

/-- JS `String.prototype.toLowerCase` (ASCII scope). -/
def toLowerL (l : List Char) : List Char := l.map Char.toLower

/-- Helper for `listContains`: does `hay` start with `needle`? -/
def listStartsWith : List Char → List Char → Bool
  | [], _ => true
  | _ :: _, [] => false
  | a :: as, b :: bs => a == b && listStartsWith as bs

/-- JS `String.prototype.includes`: `needle` occurs inside `hay`. -/
def listContains (hay needle : List Char) : Bool :=
  match hay with
  | [] => needle.isEmpty
  | _ :: rest => listStartsWith needle hay || listContains rest needle

/-- JS `Array.prototype.join(sep)`. -/
def joinWith (sep : List Char) : List (List Char) → List Char
  | [] => []
  | [x] => x
  | x :: xs => x ++ sep ++ joinWith sep xs

/-- JS `Array.prototype.indexOf` (with `===` string equality).  Returns
`l.length` when the element is absent; at every use site in the pipeline
the element is present, and when it is not, the downstream bound checks
reject the value exactly as they reject JS's `-1`. -/
def idxOf (a : List Char) : List (List Char) → ℕ
  | [] => 0
  | b :: bs => if b = a then 0 else idxOf a bs + 1

/-- JS object update `m[k] = (m[k] || 0) + d`: an existing key keeps its
insertion position, a new key is appended (JS objects enumerate
non-integer-like string keys in insertion order). -/
def bumpAssoc : List (List Char × ℕ) → List Char → ℕ → List (List Char × ℕ)
  | [], k, d => [(k, d)]
  | (k', v) :: rest, k, d =>
    if k' = k then (k', v + d) :: rest else (k', v) :: bumpAssoc rest k d

/-- JS object assignment `m[k] = v` (same ordering semantics). -/
def setAssoc {β : Type} : List (List Char × β) → List Char → β → List (List Char × β)
  | [], k, v => [(k, v)]
  | (k', v') :: rest, k, v =>
    if k' = k then (k', v) :: rest else (k', v') :: setAssoc rest k v

/-- JS object property read `m[k]`. -/
def lookupAssoc {β : Type} : List (List Char × β) → List Char → Option β
  | [], _ => none
  | (k', v) :: rest, k => if k' = k then some v else lookupAssoc rest k

/-- JS object spread `{...a, ...b}`: keys of `a` in order (values
overridden by `b` on collision), then the keys of `b` not present in
`a`, in `b`'s order. -/
def mergeAssoc (a b : List (List Char × ℕ)) : List (List Char × ℕ) :=
  a.map (fun e => (e.1, (lookupAssoc b e.1).getD e.2)) ++
    b.filter (fun e => (lookupAssoc a e.1).isNone)

/-- The stop-word list of `extractKeyTerms`. -/
def stopWords : List (List Char) :=
  ["the".data, "a".data, "an".data, "and".data, "or".data, "but".data,
   "is".data, "in".data, "it".data, "to".data, "i".data, "that".data,
   "had".data, "on".data, "for".data, "were".data, "was".data, "of".data,
   "be".data, "this".data, "with".data, "by".data, "as".data, "at".data,
   "from".data, "they".data, "are".data, "have".data, "has".data,
   "been".data, "not".data, "their".data, "there".data, "which".data,
   "when".data, "who".data, "what".data, "where".data, "why".data,
   "how".data, "all".data, "any".data, "both".data, "each".data,
   "few".data, "more".data, "most".data, "some".data, "such".data,
   "than".data, "too".data, "very".data, "can".data, "will".data,
   "just".data, "should".data, "now".data]

/-- `text.toLowerCase().replace(/[^\w\s]/g, '')`. -/
def cleanTextOf (text : List Char) : List Char :=
  (text.map Char.toLower).filter (fun c => isWordChar c || isSpaceChar c)

/-- `cleanText.split(/\s+/).filter(word => word.length > 0)`. -/
def wordsOf (text : List Char) : List (List Char) :=
  (splitOn1 isSpaceChar (cleanTextOf text)).filter (fun w => 0 < w.length)

/-- The body of the `words.forEach` loop building the unigram map:
`if (!stopWords.includes(word) && word.length > 3) wordCounts[word] = (wordCounts[word] || 0) + 1`. -/
def wordStep (m : List (List Char × ℕ)) (word : List Char) : List (List Char × ℕ) :=
  if word ∉ stopWords ∧ 3 < word.length then bumpAssoc m word 1 else m

/-- The unigram frequency map of `extractKeyTerms`. -/
def wordCountsOf (ws : List (List Char)) : List (List Char × ℕ) :=
  ws.foldl wordStep []

/-- The bigram/trigram loop of `extractKeyTerms`:
`for (let i = 0; i < words.length - 1; i++)`, bumping the bigram at `i`
by 1 and (when `i < words.length - 2`) the trigram at `i` by 3.  Note
the source checks the stop-word list only for the first and third word
of a trigram, which is preserved here.  `phraseStep` is the loop body at
index `i`. -/
def phraseStep (ws : List (List Char)) (m : List (List Char × ℕ)) (i : ℕ) :
    List (List Char × ℕ) :=
  let wi := ws.getD i []
  let wi1 := ws.getD (i + 1) []
  let wi2 := ws.getD (i + 2) []
  let m1 :=
    if 3 < wi.length ∧ 3 < wi1.length ∧ wi ∉ stopWords ∧ wi1 ∉ stopWords
    then bumpAssoc m (wi ++ ' ' :: wi1) 1
    else m
  if i < ws.length - 2 ∧ 3 < wi.length ∧ 3 < wi1.length ∧ 3 < wi2.length ∧
      wi ∉ stopWords ∧ wi2 ∉ stopWords
  then bumpAssoc m1 (wi ++ ' ' :: wi1 ++ ' ' :: wi2) 3
  else m1

/-- The bigram/trigram frequency map of `extractKeyTerms`. -/
def phrasesOf (ws : List (List Char)) : List (List Char × ℕ) :=
  (List.range (ws.length - 1)).foldl (phraseStep ws) []

/-- Descending stable sort of `(term, count)` entries,
`Object.entries(combined).sort((a, b) => b[1] - a[1])`. -/
def sortEntriesDesc (l : List (List Char × ℕ)) : List (List Char × ℕ) :=
  l.insertionSort (fun x y => y.2 ≤ x.2)

/-- `extractKeyTerms(text)` of `src/ExamHelper.js`. -/
def extractKeyTerms (text : List Char) : List (List Char) :=
  let ws := wordsOf text
  let wordCounts := wordCountsOf ws
  let phrases := phrasesOf ws
  let combined := mergeAssoc wordCounts phrases
  ((sortEntriesDesc combined).take 20).map (fun e => e.1)

/-- Sentence splitting, identical in `generateSummary`, `generateMCQs`
and `generateQnA`:
`text.split(/[.!?]+/).filter(s => s.trim().length > 0)`.
The filter checks the trimmed length but keeps the untrimmed piece. -/
def splitSentences (text : List Char) : List (List Char) :=
  (splitOn1 isSentenceDelim text).filter (fun s => 0 < (trimL s).length)

/-- Position score of sentence `i` out of `N` in `generateSummary`.  The
literals `0.1` and `0.8` are modelled exactly; their double roundings
can move the strict-inequality thresholds only for astronomically large
`N`, and no property proved below depends on these two thresholds. -/
def positionScore (N i : ℕ) : ℚ :=
  if i < 3 then 3
  else if (i : ℚ) < (N : ℚ) * (1 / 10) then 2
  else if (N : ℚ) * (8 / 10) < (i : ℚ) then 3 / 2
  else 1

/-- Term score of one sentence in `generateSummary`: for each key term,
`if (sentence.toLowerCase().includes(term)) score += 1` — the term is
used as stored (the extractor already lowercased it), only the sentence
is lowercased here. -/
def termScore (keyTerms : List (List Char)) (s : List Char) : ℕ :=
  keyTerms.foldl
    (fun score term => if listContains (toLowerL s) term then score + 1 else score)
    0

/-- Combined score list of `generateSummary`:
`positionScores[index] * (termScores[index] + 1)`, with the two
intermediate arrays (each a `map` over the sentences) read back at the
same index they were written. -/
def combinedScores (keyTerms : List (List Char)) (sentences : List (List Char)) :
    List ℚ :=
  sentences.enum.map
    (fun p => positionScore sentences.length p.1 * ((termScore keyTerms p.2 : ℚ) + 1))

/-- `Math.max(Math.ceil(sentences.length * 0.25), 3)`; `0.25` is exactly
representable, so `Math.ceil` computes the rational ceiling. -/
def summaryLength (N : ℕ) : ℕ := max (⌈(N : ℚ) * (25 / 100)⌉.toNat) 3

/-- The indexes of the sentences selected by `generateSummary`:
pair each combined score with its index, stable-sort descending by
score, keep the first `summaryLength` entries, project the indexes and
sort them ascending. -/
def selectedIndexes (keyTerms : List (List Char)) (sentences : List (List Char)) :
    List ℕ :=
  let indexedScores := (combinedScores keyTerms sentences).enum.map (fun p => (p.2, p.1))
  let sorted := indexedScores.insertionSort (fun x y => y.1 ≤ x.1)
  (((sorted.take (summaryLength sentences.length)).map (fun p => p.2)).insertionSort (· ≤ ·))

/-- `generateSummary(text)` of `src/ExamHelper.js`.  In the source the
function is a closure reading the `keyTerms` component state; that
captured state value is passed here as the explicit first argument. -/
def generateSummary (keyTerms : List (List Char)) (text : List Char) : List Char :=
  let sentences := splitSentences text
  if sentences.length ≤ 3 then joinWith ". ".data sentences ++ ".".data
  else
    joinWith ". ".data
      ((selectedIndexes keyTerms sentences).map (fun i => sentences.getD i [])) ++
      ".".data

/-- One generated multiple-choice question. -/
structure MCQItem where
  id : ℕ
  question : List Char
  options : List (List Char)
  correctAnswer : ℕ
  context : List Char
deriving DecidableEq, Repr, Inhabited

/-- One generated question/answer pair. -/
structure QnAItem where
  id : ℕ
  question : List Char
  answer : List Char
deriving DecidableEq, Repr

/-- The sentences containing a term, case-insensitively:
`sentences.filter(s => s.toLowerCase().includes(term.toLowerCase()))`. -/
def matchingSentences (sentences : List (List Char)) (term : List Char) :
    List (List Char) :=
  sentences.filter (fun s => listContains (toLowerL s) (toLowerL term))

/-- The loop body of the `keyTerms.forEach` building `termSentences` in
`generateMCQs`: store the matching sentences under the term when there
is at least one. -/
def termStep (sentences : List (List Char))
    (m : List (List Char × List (List Char))) (term : List Char) :
    List (List Char × List (List Char)) :=
  let ms := matchingSentences sentences term
  if ms.isEmpty then m else setAssoc m term ms

/-- The entry a single term contributes (used to restate the object as a
`filterMap` for duplicate-free term lists). -/
def termEntry (sentences : List (List Char)) (term : List Char) :
    Option (List Char × List (List Char)) :=
  let ms := matchingSentences sentences term
  if ms.isEmpty then none else some (term, ms)

/-- The `termSentences` object of `generateMCQs`: for each key term with
at least one matching sentence, record the matching sentences (JS object
semantics: a repeated term overwrites its own entry in place). -/
def termSentencesAssoc (sentences : List (List Char)) (keyTerms : List (List Char)) :
    List (List Char × List (List Char)) :=
  keyTerms.foldl (termStep sentences) []

/-- The apostrophe character, used in one distractor string. -/
def apos : Char := Char.ofNat 39

/-- The question text and the four pre-shuffle options built by
`generateMCQs` for one term: option 0 is the trimmed target sentence,
options 1–3 are the templated distractors (phrase terms and single-word
terms use different templates). -/
def mcqQuestionOptions (term targetSentence : List Char) :
    List Char × List (List Char) :=
  if ' ' ∈ term then
    ("Which of the following best describes \"".data ++ term ++
       "\" as mentioned in the document?".data,
     [trimL targetSentence,
      term ++ " refers to an unrelated concept not covered in this document.".data,
      term ++ " is a contradictory element in the document.".data,
      term ++ " is mentioned but not significant to the main topic.".data])
  else
    ("According to the document, what is true about ".data ++ term ++ "?".data,
     [trimL targetSentence,
      term ++ " is not relevant to the main subject of this document.".data,
      term ++ " represents an opposing viewpoint to the document".data ++
        [apos] ++ "s main argument.".data,
      term ++ " is a minor concept that appears only once in the document.".data])

/-- The body of the `selectedTerms.forEach((term, index) => ...)` loop
of `generateMCQs`.  `shuffle` abstracts `_.shuffle`;
`newCorrectIndex = shuffledOptions.indexOf(options[0])`. -/
def mkMCQ (shuffle : List (List Char) → List (List Char))
    (sentences : List (List Char)) (index : ℕ) (term : List Char)
    (relatedSentences : List (List Char)) : MCQItem :=
  let targetSentence := relatedSentences.getD 0 []
  let sentenceIndex := idxOf targetSentence sentences
  let context :=
    if 0 < sentenceIndex ∧ sentenceIndex < sentences.length - 1 then
      sentences.getD (sentenceIndex - 1) [] ++ ". ".data ++ targetSentence ++
        ". ".data ++ sentences.getD (sentenceIndex + 1) []
    else targetSentence
  let qo := mcqQuestionOptions term targetSentence
  let shuffledOptions := shuffle qo.2
  { id := index + 1
    question := qo.1
    options := shuffledOptions
    correctAnswer := idxOf (qo.2.getD 0 []) shuffledOptions
    context := context }

/-- `generateMCQs(text, keyTerms)` of `src/ExamHelper.js`, with the
`_.shuffle` call abstracted as the function parameter `shuffle`. -/
def generateMCQs (shuffle : List (List Char) → List (List Char))
    (text : List Char) (keyTerms : List (List Char)) : List MCQItem :=
  let sentences := splitSentences text
  let questionsCount := min keyTerms.length 10
  let termSentences := termSentencesAssoc sentences keyTerms
  let selectedTerms := (termSentences.map (fun e => e.1)).take questionsCount
  selectedTerms.enum.map
    (fun p => mkMCQ shuffle sentences p.1 p.2 ((lookupAssoc termSentences p.2).getD []))

/-- The pseudo-paragraph grouping of `generateQnA`: push each sentence
onto the current paragraph and close the paragraph whenever the sentence
contains a line break or is shorter than 20 characters.  (The inner
`currentParagraph.length > 0` check of the source is always true there,
the sentence having just been pushed.) -/
def paragraphsOf (sentences : List (List Char)) : List (List (List Char)) :=
  let st := sentences.foldl
    (fun (st : List (List (List Char)) × List (List Char)) sentence =>
      let cur := st.2 ++ [sentence]
      if '\n' ∈ sentence ∨ sentence.length < 20 then (st.1 ++ [cur], [])
      else (st.1, cur))
    ([], [])
  if st.2.isEmpty then st.1 else st.1 ++ [st.2]

/-- `paragraphs.filter(para => para.some(s => s.toLowerCase().includes(term.toLowerCase())))`. -/
def relevantParagraphs (paragraphs : List (List (List Char))) (term : List Char) :
    List (List (List Char)) :=
  paragraphs.filter
    (fun para => para.any (fun s => listContains (toLowerL s) (toLowerL term)))

/-- The four question templates of `generateQnA`, instantiated at a term. -/
def questionVariants (term : List Char) : List (List Char) :=
  ["What is explained about ".data ++ term ++ " in the document?".data,
   "How does the document describe ".data ++ term ++ "?".data,
   "What information does the document provide about ".data ++ term ++ "?".data,
   "What role does ".data ++ term ++ " play according to the text?".data]

/-- Question text of the generic main-topic item of `generateQnA`. -/
def mainTopicQuestion : List Char := "What is the main topic of this document?".data

/-- Question text of the generic conclusion item of `generateQnA`. -/
def conclusionQuestion : List Char :=
  "What conclusion can be drawn from this document?".data

/-- The term-based items of `generateQnA`: the
`keyTerms.slice(0, 8).forEach((term, termIndex) => ...)` loop.  A term
with no matching paragraph pushes nothing; an emitted item carries
`id = termIndex + 1` and cycles the question template by `termIndex`. -/
def termQnAItems (paragraphs : List (List (List Char)))
    (keyTerms : List (List Char)) : List QnAItem :=
  (keyTerms.take 8).enum.filterMap
    (fun p =>
      match relevantParagraphs paragraphs p.2 with
      | [] => none
      | paragraph :: _ =>
        some { id := p.1 + 1
               question := (questionVariants p.2).getD (p.1 % (questionVariants p.2).length) []
               answer := trimL (joinWith " ".data paragraph) })

/-- `generateQnA(text, keyTerms)` of `src/ExamHelper.js`.  Each generic
item gets `id = result.length + 1` at the moment it is pushed;
`sentences.slice(-3)` is the last three sentences. -/
def generateQnA (text : List Char) (keyTerms : List (List Char)) : List QnAItem :=
  let sentences := splitSentences text
  let result := termQnAItems (paragraphsOf sentences) keyTerms
  if 5 < sentences.length then
    let result := result ++
      [{ id := result.length + 1
         question := mainTopicQuestion
         answer := joinWith " ".data (sentences.take 3) }]
    if 10 < sentences.length then
      result ++
        [{ id := result.length + 1
           question := conclusionQuestion
           answer := joinWith " ".data (sentences.drop (sentences.length - 3)) }]
    else result
  else result

/-- The component state fields touched by the pipeline (initial values as
in the `useState` initializers). -/
structure AppState where
  summary : List Char
  mcqs : List MCQItem
  qna : List QnAItem
  keyTerms : List (List Char)
  errorMessage : List Char
  isLoading : Bool
  processingStage : List Char
deriving DecidableEq, Repr

/-- The initial component state. -/
def initState : AppState :=
  { summary := [], mcqs := [], qna := [], keyTerms := [],
    errorMessage := [], isLoading := false, processingStage := [] }

/-- `processDocument(text)` of `src/ExamHelper.js`, acting on the
component state current when the handler closure was created.  React
`useState` setters do not mutate the closure's captured values: the call
`setKeyTerms(terms)` schedules a state update for the next render, so
the `generateSummary` call that follows it still reads the *captured*
`keyTerms` value (`st.keyTerms` here — empty on a fresh mount, the
previous document's terms on a re-upload), while `generateMCQs` and
`generateQnA` receive the local variable `terms` explicitly. -/
def processDocument (shuffle : List (List Char) → List (List Char))
    (st : AppState) (text : List Char) : AppState :=
  let terms := extractKeyTerms text
  { st with
    keyTerms := terms
    summary := generateSummary st.keyTerms text
    mcqs := generateMCQs shuffle text terms
    qna := generateQnA text terms
    isLoading := false
    processingStage := [] }

/-- The accepted MIME types of `handleFileUpload`. -/
def validTypes : List (List Char) :=
  ["text/plain".data,
   "application/pdf".data,
   "application/vnd.openxmlformats-officedocument.wordprocessingml.document".data,
   "text/csv".data]

/-- The error message shown for an unsupported file type. -/
def invalidTypeMessage : List Char :=
  "Please upload a text, PDF, Word document, or CSV file".data

/-- The synchronous prefix of `handleFileUpload(event)`: all output
state is reset first, then the event's file (its MIME type here; `none`
models a cancelled dialog with no file) is validated.  The returned
flag tells whether the handler goes on to the asynchronous
extraction-and-processing phase. -/
def handleFileUpload (st : AppState) (upload : Option (List Char)) :
    AppState × Bool :=
  let st := { st with
    errorMessage := [], processingStage := [], summary := [],
    mcqs := [], qna := [], keyTerms := [] }
  match upload with
  | none => (st, false)
  | some fileType =>
    if fileType ∈ validTypes then (st, true)
    else ({ st with errorMessage := invalidTypeMessage }, false)

/-! ### General lemmas about the splitter -/

theorem splitAux_no_delim (p : Char → Bool) :
    ∀ (l acc : List Char), (∀ c ∈ acc, p c = false) →
      ∀ s ∈ splitAux p l acc, ∀ c ∈ s, p c = false := by
  intro l
  induction l with
  | nil =>
    intro acc hacc s hs c hc
    simp only [splitAux, List.mem_singleton] at hs
    subst hs
    exact hacc c (List.mem_reverse.mp hc)
  | cons a as ih =>
    intro acc hacc s hs c hc
    by_cases ha : p a
    · simp only [splitAux, if_pos ha, List.mem_cons] at hs
      rcases hs with h | h
      · subst h
        exact hacc c (List.mem_reverse.mp hc)
      · exact ih [] (by simp) s h c hc
    · simp only [splitAux, if_neg ha] at hs
      refine ih (a :: acc) ?_ s hs c hc
      intro d hd
      rcases List.mem_cons.mp hd with h | h
      · subst h
        exact Bool.eq_false_iff.mpr ha
      · exact hacc d h

theorem splitAux_mem_parts (p : Char → Bool) :
    ∀ (l acc : List Char), ∀ s ∈ splitAux p l acc,
      ∃ pre suf, acc.reverse ++ l = pre ++ s ++ suf := by
  intro l
  induction l with
  | nil =>
    intro acc s hs
    simp only [splitAux, List.mem_singleton] at hs
    subst hs
    exact ⟨[], [], by simp⟩
  | cons a as ih =>
    intro acc s hs
    by_cases ha : p a
    · simp only [splitAux, if_pos ha, List.mem_cons] at hs
      rcases hs with h | h
      · subst h
        exact ⟨[], a :: as, by simp⟩
      · obtain ⟨pre, suf, hps⟩ := ih [] s h
        simp only [List.reverse_nil, List.nil_append] at hps
        exact ⟨acc.reverse ++ [a] ++ pre, suf, by simp [hps, List.append_assoc]⟩
    · simp only [splitAux, if_neg ha] at hs
      obtain ⟨pre, suf, hps⟩ := ih (a :: acc) s hs
      refine ⟨pre, suf, ?_⟩
      simpa [List.append_assoc] using hps

/-! ### C7 — sentence splitting -/

/-- C7, corrected: each sentence produced by `splitSentences` is
whitespace-only-free (nonempty after trimming), contains no sentence
delimiter, and is a contiguous substring of the source text.  The source
does **not** trim the pieces (see the counterexample), so no conclusion
about absence of leading/trailing whitespace is available. -/
theorem splitSentences_pieces (text s : List Char) (h : s ∈ splitSentences text) :
    0 < (trimL s).length ∧ (∀ c ∈ s, isSentenceDelim c = false) ∧
      ∃ pre suf, text = pre ++ s ++ suf := by
  have hmem := List.mem_filter.mp h
  refine ⟨by simpa using hmem.2, ?_, ?_⟩
  · exact splitAux_no_delim isSentenceDelim text [] (by simp) s hmem.1
  · have := splitAux_mem_parts isSentenceDelim text [] s hmem.1
    simpa using this

/-- C7 witness: the amended statement at a concrete text and sentence. -/
theorem splitSentences_pieces_witness :
    0 < (trimL " there".data).length ∧
      (∀ c ∈ " there".data, isSentenceDelim c = false) ∧
      ∃ pre suf, "Hi. there".data = pre ++ " there".data ++ suf :=
  splitSentences_pieces "Hi. there".data " there".data (by decide)

/-- C7 counterexample: the claim says every produced sentence is trimmed
(no leading or trailing whitespace); on `"Hi. there"` the second
sentence is `" there"`, which still carries its leading space. -/
theorem splitSentences_not_trimmed :
    ¬ (∀ s ∈ splitSentences "Hi. there".data, trimL s = s) := by
  decide

/-! ### C10 — handleFileUpload clears outputs before validation -/

/-- C10, confirmed: `handleFileUpload` resets every computed output
(and the error message) before validating; an unsupported file type
leaves all outputs empty with only the error message set and does not
proceed, and a cancelled dialog (no file) leaves everything cleared with
no error and does not proceed. -/
theorem handleFileUpload_clears_outputs (st : AppState) (fileType : List Char)
    (h : fileType ∉ validTypes) :
    ((handleFileUpload st (some fileType)).1.summary = [] ∧
      (handleFileUpload st (some fileType)).1.mcqs = [] ∧
      (handleFileUpload st (some fileType)).1.qna = [] ∧
      (handleFileUpload st (some fileType)).1.keyTerms = [] ∧
      (handleFileUpload st (some fileType)).1.errorMessage = invalidTypeMessage ∧
      (handleFileUpload st (some fileType)).2 = false) ∧
    ((handleFileUpload st none).1.summary = [] ∧
      (handleFileUpload st none).1.mcqs = [] ∧
      (handleFileUpload st none).1.qna = [] ∧
      (handleFileUpload st none).1.keyTerms = [] ∧
      (handleFileUpload st none).1.errorMessage = [] ∧
      (handleFileUpload st none).2 = false) := by
  simp [handleFileUpload, if_neg h]

/-- C10 witness: a state holding prior results is wiped by an upload of
an unsupported type (`image/png`) and by a cancelled dialog. -/
theorem handleFileUpload_clears_outputs_witness :
    ("image/png".data ∉ validTypes) ∧
      (((handleFileUpload
            { initState with summary := "old".data, keyTerms := ["old".data] }
            (some "image/png".data)).1.summary = [] ∧
        (handleFileUpload
            { initState with summary := "old".data, keyTerms := ["old".data] }
            (some "image/png".data)).1.mcqs = [] ∧
        (handleFileUpload
            { initState with summary := "old".data, keyTerms := ["old".data] }
            (some "image/png".data)).1.qna = [] ∧
        (handleFileUpload
            { initState with summary := "old".data, keyTerms := ["old".data] }
            (some "image/png".data)).1.keyTerms = [] ∧
        (handleFileUpload
            { initState with summary := "old".data, keyTerms := ["old".data] }
            (some "image/png".data)).1.errorMessage = invalidTypeMessage ∧
        (handleFileUpload
            { initState with summary := "old".data, keyTerms := ["old".data] }
            (some "image/png".data)).2 = false) ∧
       ((handleFileUpload
            { initState with summary := "old".data, keyTerms := ["old".data] }
            none).1.summary = [] ∧
        (handleFileUpload
            { initState with summary := "old".data, keyTerms := ["old".data] }
            none).1.mcqs = [] ∧
        (handleFileUpload
            { initState with summary := "old".data, keyTerms := ["old".data] }
            none).1.qna = [] ∧
        (handleFileUpload
            { initState with summary := "old".data, keyTerms := ["old".data] }
            none).1.keyTerms = [] ∧
        (handleFileUpload
            { initState with summary := "old".data, keyTerms := ["old".data] }
            none).1.errorMessage = [] ∧
        (handleFileUpload
            { initState with summary := "old".data, keyTerms := ["old".data] }
            none).2 = false)) :=
  ⟨by decide,
   handleFileUpload_clears_outputs
     { initState with summary := "old".data, keyTerms := ["old".data] }
     "image/png".data (by decide)⟩

/-! ### C2 / C4 — the summarizer reads stale key terms -/

/-- A 6-sentence text whose fourth sentence matches many key terms while
the first three sentences (stop words and short words only) match none.
With the key terms of this very text, sentence 3 (0-based) outscores
sentence 2; with no key terms, positional scores alone select sentences
0, 1, 2. -/
def exampleText : List Char :=
  "It is so. He is up. We go on. Elephant giraffe elephant giraffe. At it be. So it is.".data

/-- C2: `processDocument` computes `terms = extractKeyTerms(text)` and
then calls `generateSummary(text)`, whose body reads the captured
`keyTerms` state — still the pre-upload value (empty on a fresh mount),
because `setKeyTerms(terms)` only takes effect on the next render.  The
summary of the pipeline therefore equals the summary scored with the
stale terms and differs from the summary scored with the freshly
extracted terms of the same text, contradicting the claim. -/
theorem summary_uses_stale_terms :
    (processDocument id initState exampleText).summary =
        generateSummary [] exampleText ∧
      (processDocument id initState exampleText).summary ≠
        generateSummary (extractKeyTerms exampleText) exampleText :=
  ⟨rfl, of_decide_eq_true (by with_unfolding_all rfl)⟩

/-- C4: running the pipeline twice on the same text (shuffle fixed to
the identity permutation) yields identical Q&A and identical MCQs, but
the second run's summary differs from the first run's: the second run
scores sentences with the key terms stored by the first run, the first
run with the initial empty key-term state. -/
theorem pipeline_second_run_differs :
    (processDocument id (processDocument id initState exampleText) exampleText).qna =
        (processDocument id initState exampleText).qna ∧
      (processDocument id (processDocument id initState exampleText) exampleText).mcqs =
        (processDocument id initState exampleText).mcqs ∧
      (processDocument id (processDocument id initState exampleText) exampleText).summary ≠
        (processDocument id initState exampleText).summary :=
  ⟨rfl, rfl, of_decide_eq_true (by with_unfolding_all rfl)⟩

/-! ### C9 — generic Q&A items appear iff the sentence-count thresholds hold -/

theorem append_ne_of_take_ne {p g : List Char} (r : List Char) (n : ℕ)
    (hn : n ≤ p.length) (hne : p.take n ≠ g.take n) : p ++ r ≠ g :=
  fun h => hne (by rw [← h, List.take_append_of_le_length hn])

theorem questionVariants_ne_generic (t q : List Char) (hq : q ∈ questionVariants t) :
    q ≠ mainTopicQuestion ∧ q ≠ conclusionQuestion := by
  simp only [questionVariants, List.mem_cons, List.not_mem_nil, or_false] at hq
  rcases hq with h | h | h | h <;> subst h <;>
    rw [List.append_assoc] <;> constructor
  · exact append_ne_of_take_ne _ 9 (by decide) (by decide)
  · exact append_ne_of_take_ne _ 6 (by decide) (by decide)
  · exact append_ne_of_take_ne _ 1 (by decide) (by decide)
  · exact append_ne_of_take_ne _ 1 (by decide) (by decide)
  · exact append_ne_of_take_ne _ 7 (by decide) (by decide)
  · exact append_ne_of_take_ne _ 6 (by decide) (by decide)
  · exact append_ne_of_take_ne _ 6 (by decide) (by decide)
  · exact append_ne_of_take_ne _ 6 (by decide) (by decide)

theorem termQnAItems_question_ne (paras : List (List (List Char)))
    (ks : List (List Char)) (item : QnAItem) (h : item ∈ termQnAItems paras ks) :
    item.question ≠ mainTopicQuestion ∧ item.question ≠ conclusionQuestion := by
  obtain ⟨p, hp, hfp⟩ := List.mem_filterMap.mp h
  rcases hrel : relevantParagraphs paras p.2 with _ | ⟨para, rest⟩ <;>
    rw [hrel] at hfp
  · exact absurd hfp (by simp)
  · simp only [Option.some.injEq] at hfp
    subst hfp
    apply questionVariants_ne_generic p.2
    have hlen : (questionVariants p.2).length = 4 := rfl
    have hmod : p.1 % (questionVariants p.2).length < (questionVariants p.2).length := by
      rw [hlen]; omega
    rw [List.getD_eq_getElem _ _ hmod]
    exact List.getElem_mem hmod

/-- C9, confirmed: the generic "main topic" item (with the first three
sentences joined as its answer) occurs in the Q&A output iff the text
has more than 5 sentences, and the generic "conclusion" item (last three
sentences joined) occurs iff it has more than 10 sentences. -/
theorem qna_generic_questions_iff (text : List Char) (ks : List (List Char)) :
    ((∃ item ∈ generateQnA text ks, item.question = mainTopicQuestion ∧
        item.answer = joinWith " ".data ((splitSentences text).take 3)) ↔
      5 < (splitSentences text).length) ∧
    ((∃ item ∈ generateQnA text ks, item.question = conclusionQuestion ∧
        item.answer = joinWith " ".data
          ((splitSentences text).drop ((splitSentences text).length - 3))) ↔
      10 < (splitSentences text).length) := by
  constructor
  · constructor
    · rintro ⟨item, hmem, hq, -⟩
      by_contra h5
      simp only [generateQnA, if_neg h5] at hmem
      exact (termQnAItems_question_ne _ _ _ hmem).1 hq
    · intro h5
      by_cases h10 : 10 < (splitSentences text).length
      · simp only [generateQnA, if_pos h5, if_pos h10]
        exact ⟨_, List.mem_append_left _ (List.mem_append_right _ (List.mem_singleton_self _)),
          rfl, rfl⟩
      · simp only [generateQnA, if_pos h5, if_neg h10]
        exact ⟨_, List.mem_append_right _ (List.mem_singleton_self _), rfl, rfl⟩
  · constructor
    · rintro ⟨item, hmem, hq, -⟩
      by_contra h10
      by_cases h5 : 5 < (splitSentences text).length
      · simp only [generateQnA, if_pos h5, if_neg h10] at hmem
        rcases List.mem_append.mp hmem with h | h
        · exact (termQnAItems_question_ne _ _ _ h).2 hq
        · simp only [List.mem_singleton] at h
          subst h
          exact absurd (show mainTopicQuestion = conclusionQuestion from hq) (by decide)
      · simp only [generateQnA, if_neg h5] at hmem
        exact (termQnAItems_question_ne _ _ _ hmem).2 hq
    · intro h10
      have h5 : 5 < (splitSentences text).length := by omega
      simp only [generateQnA, if_pos h5, if_pos h10]
      exact ⟨_, List.mem_append_right _ (List.mem_singleton_self _), rfl, rfl⟩

/-! ### C3 — Q&A ids -/

theorem termQnAItems_ids_enumFrom (paras : List (List (List Char))) :
    ∀ (l : List (List Char)) (n : ℕ),
      (∀ t ∈ l, relevantParagraphs paras t ≠ []) →
      (((l.enumFrom n).filterMap
          (fun p =>
            match relevantParagraphs paras p.2 with
            | [] => none
            | paragraph :: _ =>
              some { id := p.1 + 1
                     question := (questionVariants p.2).getD
                       (p.1 % (questionVariants p.2).length) []
                     answer := trimL (joinWith " ".data paragraph) : QnAItem })).map
        QnAItem.id) = List.range' (n + 1) l.length := by
  intro l
  induction l with
  | nil => intro n h; rfl
  | cons t rest ih =>
    intro n h
    obtain ⟨para, ps, hps⟩ :=
      List.exists_cons_of_ne_nil (h t (List.mem_cons_self t rest))
    simp only [List.enumFrom_cons, List.filterMap_cons, hps, List.map_cons,
      List.length_cons]
    rw [ih (n + 1) (fun t' ht' => h t' (List.mem_cons_of_mem t ht')),
      List.range'_succ]

/-- C3, corrected: when every one of the first `min(8, |keyTerms|)` key
terms matches some paragraph, the ids of the returned items form the
consecutive sequence `1, 2, 3, ...` across term-based and generic items.
(When a term is skipped the term-based ids keep gaps — they are
`termIndex + 1` — and a generic id `result.length + 1` can duplicate a
term-based id; see the counterexample.) -/
theorem qna_ids_consecutive_of_all_match (text : List Char)
    (ks : List (List Char))
    (h : ∀ t ∈ ks.take 8,
      relevantParagraphs (paragraphsOf (splitSentences text)) t ≠ []) :
    (generateQnA text ks).map QnAItem.id =
      List.range' 1 (generateQnA text ks).length := by
  have hterm :
      (termQnAItems (paragraphsOf (splitSentences text)) ks).map QnAItem.id =
        List.range' 1 (ks.take 8).length :=
    termQnAItems_ids_enumFrom (paragraphsOf (splitSentences text)) (ks.take 8) 0 h
  have hlen : (termQnAItems (paragraphsOf (splitSentences text)) ks).length =
      (ks.take 8).length := by
    have := congrArg List.length hterm
    simpa using this
  by_cases h5 : 5 < (splitSentences text).length
  · by_cases h10 : 10 < (splitSentences text).length
    · simp only [generateQnA, if_pos h5, if_pos h10, List.map_append,
        List.length_append, List.map_cons, List.map_nil, List.length_cons,
        List.length_nil, hterm, hlen]
      rw [show (ks.take 8).length + 1 + 0 + (1 + 0) = (ks.take 8).length + 1 + 1 by omega]
      rw [List.range'_1_concat, List.range'_1_concat]
      simp [hlen]
      omega
    · simp only [generateQnA, if_pos h5, if_neg h10, List.map_append,
        List.length_append, List.map_cons, List.map_nil, List.length_cons,
        List.length_nil, hterm, hlen]
      rw [show (ks.take 8).length + (1 + 0) = (ks.take 8).length + 1 by omega]
      rw [List.range'_1_concat]
      simp [hlen]
      omega
  · simp only [generateQnA, if_neg h5, hterm, hlen]

/-- C3 witness: with both key terms matching and more than five
sentences, the ids are consecutively `1, 2, 3`. -/
theorem qna_ids_consecutive_witness :
    (∀ t ∈ (["aaaa".data, "cccc".data] : List (List Char)).take 8,
      relevantParagraphs
        (paragraphsOf (splitSentences "Aaaa one here. Cccc two here. Go. Go. Go. Go.".data))
        t ≠ []) ∧
    (generateQnA "Aaaa one here. Cccc two here. Go. Go. Go. Go.".data
        ["aaaa".data, "cccc".data]).map QnAItem.id =
      List.range' 1
        (generateQnA "Aaaa one here. Cccc two here. Go. Go. Go. Go.".data
          ["aaaa".data, "cccc".data]).length :=
  ⟨by decide,
   qna_ids_consecutive_of_all_match
     "Aaaa one here. Cccc two here. Go. Go. Go. Go.".data
     ["aaaa".data, "cccc".data] (by decide)⟩

/-- C3 counterexample: with key terms `["aaaa", "bbbb", "cccc"]` where
`"bbbb"` matches no paragraph, the ids produced are `[1, 3, 3]` — a gap
at 2 and a duplicated 3 (the skipped term consumed id 2, and the generic
item's `result.length + 1` collides) — not the claimed consecutive
`1, 2, 3`. -/
theorem qna_ids_gap_counterexample :
    (generateQnA "Aaaa one here. Cccc two here. Go. Go. Go. Go.".data
        ["aaaa".data, "bbbb".data, "cccc".data]).map QnAItem.id = [1, 3, 3] ∧
    ¬ ((generateQnA "Aaaa one here. Cccc two here. Go. Go. Go. Go.".data
        ["aaaa".data, "bbbb".data, "cccc".data]).map QnAItem.id =
      List.range' 1
        (generateQnA "Aaaa one here. Cccc two here. Go. Go. Go. Go.".data
          ["aaaa".data, "bbbb".data, "cccc".data]).length) := by
  constructor <;> decide

/-! ### C5 / C8 — MCQ invariants and count -/

theorem setAssoc_mem {β : Type} :
    ∀ (m : List (List Char × β)) (k : List Char) (v : β) (e),
      e ∈ setAssoc m k v → e = (k, v) ∨ e ∈ m := by
  intro m
  induction m with
  | nil =>
    intro k v e he
    simp only [setAssoc, List.mem_singleton] at he
    exact Or.inl he
  | cons f rest ih =>
    intro k v e he
    obtain ⟨k', v'⟩ := f
    simp only [setAssoc] at he
    by_cases hk : k' = k
    · rw [if_pos hk] at he
      rcases List.mem_cons.mp he with h | h
      · exact Or.inl (by rw [h, hk])
      · exact Or.inr (List.mem_cons_of_mem _ h)
    · rw [if_neg hk] at he
      rcases List.mem_cons.mp he with h | h
      · exact Or.inr (by rw [h]; exact List.mem_cons_self _ _)
      · rcases ih k v e h with h' | h'
        · exact Or.inl h'
        · exact Or.inr (List.mem_cons_of_mem _ h')

theorem termStep_foldl_mem (sentences : List (List Char)) :
    ∀ (ks : List (List Char)) (m : List (List Char × List (List Char))) (e),
      e ∈ ks.foldl (termStep sentences) m →
      e ∈ m ∨ (e.1 ∈ ks ∧ e.2 = matchingSentences sentences e.1 ∧
        matchingSentences sentences e.1 ≠ []) := by
  intro ks
  induction ks with
  | nil => intro m e he; exact Or.inl he
  | cons t rest ih =>
    intro m e he
    rw [List.foldl_cons] at he
    rcases ih (termStep sentences m t) e he with h | h
    · rcases hms : (matchingSentences sentences t).isEmpty with _ | _
      · rw [show termStep sentences m t = setAssoc m t (matchingSentences sentences t)
            from by simp [termStep, hms]] at h
        rcases setAssoc_mem _ _ _ _ h with h' | h'
        · refine Or.inr ?_
          rw [h']
          exact ⟨List.mem_cons_self _ _, rfl, by simpa using hms⟩
        · exact Or.inl h'
      · rw [show termStep sentences m t = m from by simp [termStep, hms]] at h
        exact Or.inl h
    · exact Or.inr ⟨List.mem_cons_of_mem _ h.1, h.2⟩

theorem lookupAssoc_eq_some_of_mem_keys {β : Type} :
    ∀ (m : List (List Char × β)) (k : List Char),
      k ∈ m.map (fun e => e.1) → ∃ v, lookupAssoc m k = some v ∧ (k, v) ∈ m := by
  intro m
  induction m with
  | nil => simp
  | cons f rest ih =>
    intro k hk
    obtain ⟨k', v'⟩ := f
    by_cases hkk : k' = k
    · exact ⟨v', by simp [lookupAssoc, hkk],
        by rw [← hkk]; exact List.mem_cons_self _ _⟩
    · have : k ∈ rest.map (fun e => e.1) := by
        rcases List.mem_cons.mp hk with h | h
        · exact absurd h.symm hkk
        · exact h
      obtain ⟨v, hv, hmem⟩ := ih k this
      exact ⟨v, by simp [lookupAssoc, hkk, hv], List.mem_cons_of_mem _ hmem⟩

theorem getD_idxOf {a : List Char} :
    ∀ {l : List (List Char)}, a ∈ l → l.getD (idxOf a l) [] = a := by
  intro l
  induction l with
  | nil => simp
  | cons b bs ih =>
    intro h
    by_cases hba : b = a
    · simp [idxOf, hba]
    · have hmem : a ∈ bs := by
        rcases List.mem_cons.mp h with h' | h'
        · exact absurd h'.symm hba
        · exact h'
      simp only [idxOf, if_neg hba, List.getD_cons_succ]
      exact ih hmem

theorem mcqQuestionOptions_snd (term target : List Char) :
    (mcqQuestionOptions term target).2.length = 4 ∧
      (mcqQuestionOptions term target).2.getD 0 [] = trimL target := by
  by_cases h : ' ' ∈ term <;> simp [mcqQuestionOptions, h]

theorem mkMCQ_options (shuffle : List (List Char) → List (List Char))
    (hsh : ∀ l, (shuffle l).Perm l) (sentences : List (List Char))
    (index : ℕ) (term : List Char) (rel : List (List Char)) :
    (mkMCQ shuffle sentences index term rel).options.length = 4 ∧
      (mkMCQ shuffle sentences index term rel).options.getD
          (mkMCQ shuffle sentences index term rel).correctAnswer [] =
        trimL (rel.getD 0 []) := by
  have hp := hsh (mcqQuestionOptions term (rel.getD 0 [])).2
  have hq := mcqQuestionOptions_snd term (rel.getD 0 [])
  constructor
  · show (shuffle (mcqQuestionOptions term (rel.getD 0 [])).2).length = 4
    rw [hp.length_eq, hq.1]
  · show (shuffle (mcqQuestionOptions term (rel.getD 0 [])).2).getD
        (idxOf ((mcqQuestionOptions term (rel.getD 0 [])).2.getD 0 [])
          (shuffle (mcqQuestionOptions term (rel.getD 0 [])).2)) [] =
      trimL (rel.getD 0 [])
    rw [hq.2]
    refine getD_idxOf (hp.mem_iff.mpr ?_)
    rw [← hq.2]
    have h4 := hq.1
    rcases hx : (mcqQuestionOptions term (rel.getD 0 [])).2 with _ | ⟨o, os⟩
    · rw [hx] at h4; simp at h4
    · simp

/-- C5, confirmed: for any shuffle that permutes its input, every item
of `generateMCQs` has exactly 4 options, and the option at index
`correctAnswer` is the trimmed first sentence containing the item's key
term (the pre-shuffle correct option). -/
theorem mcq_options_correct (shuffle : List (List Char) → List (List Char))
    (hsh : ∀ l, (shuffle l).Perm l) (text : List Char) (ks : List (List Char))
    (item : MCQItem) (hmem : item ∈ generateMCQs shuffle text ks) :
    item.options.length = 4 ∧
      ∃ term ∈ ks, matchingSentences (splitSentences text) term ≠ [] ∧
        item.options.getD item.correctAnswer [] =
          trimL ((matchingSentences (splitSentences text) term).getD 0 []) := by
  simp only [generateMCQs] at hmem
  obtain ⟨p, hp, hitem⟩ := List.mem_map.mp hmem
  have hsnd : p.2 ∈ ((termSentencesAssoc (splitSentences text) ks).map
      (fun e => e.1)).take (min ks.length 10) := by
    have h1 := List.mem_map_of_mem Prod.snd hp
    rwa [List.enum_eq_enumFrom, List.enumFrom_map_snd] at h1
  have hkey : p.2 ∈ (termSentencesAssoc (splitSentences text) ks).map (fun e => e.1) :=
    List.mem_of_mem_take hsnd
  obtain ⟨v, hlook, hin⟩ := lookupAssoc_eq_some_of_mem_keys _ _ hkey
  have hfacts := termStep_foldl_mem (splitSentences text) ks [] (p.2, v) hin
  simp only [List.not_mem_nil, false_or] at hfacts
  obtain ⟨hterm_mem, hv, hne⟩ := hfacts
  rw [hlook] at hitem
  simp only [Option.getD_some] at hitem
  subst hitem
  have hspec := mkMCQ_options shuffle hsh (splitSentences text) p.1 p.2 v
  exact ⟨hspec.1, p.2, hterm_mem, hne, by rw [hspec.2, hv]⟩

/-- C5 witness: a concrete run with `List.reverse` as the shuffle. -/
theorem mcq_options_correct_witness :
    (∀ l : List (List Char), (List.reverse l).Perm l) ∧
      ((generateMCQs List.reverse "Cats are animals. Dogs bark loud.".data
          ["cats".data]).getD 0 default).options.length = 4 ∧
      ∃ term ∈ (["cats".data] : List (List Char)),
        matchingSentences (splitSentences "Cats are animals. Dogs bark loud.".data)
          term ≠ [] ∧
        ((generateMCQs List.reverse "Cats are animals. Dogs bark loud.".data
            ["cats".data]).getD 0 default).options.getD
          ((generateMCQs List.reverse "Cats are animals. Dogs bark loud.".data
            ["cats".data]).getD 0 default).correctAnswer [] =
          trimL ((matchingSentences
            (splitSentences "Cats are animals. Dogs bark loud.".data)
            term).getD 0 []) := by
  refine ⟨fun l => List.reverse_perm l, ?_⟩
  exact mcq_options_correct List.reverse (fun l => List.reverse_perm l)
    "Cats are animals. Dogs bark loud.".data ["cats".data] _ (by decide)

theorem setAssoc_of_fresh {β : Type} :
    ∀ (m : List (List Char × β)) (k : List Char) (v : β),
      k ∉ m.map (fun e => e.1) → setAssoc m k v = m ++ [(k, v)] := by
  intro m
  induction m with
  | nil => intro k v _; rfl
  | cons f rest ih =>
    intro k v hk
    obtain ⟨k', v'⟩ := f
    simp only [List.map_cons, List.mem_cons, not_or] at hk
    simp only [setAssoc, List.cons_append]
    rw [if_neg (fun h => hk.1 h.symm), ih k v hk.2]

theorem termSentencesAssoc_eq_filterMap (sentences : List (List Char)) :
    ∀ (ks : List (List Char)) (m : List (List Char × List (List Char))),
      ks.Nodup → (∀ t ∈ ks, t ∉ m.map (fun e => e.1)) →
      ks.foldl (termStep sentences) m = m ++ ks.filterMap (termEntry sentences) := by
  intro ks
  induction ks with
  | nil => intro m _ _; simp
  | cons t rest ih =>
    intro m hnd hfresh
    obtain ⟨hnotin, hnd'⟩ := List.nodup_cons.mp hnd
    rw [List.foldl_cons, List.filterMap_cons]
    rcases hms : (matchingSentences sentences t).isEmpty with _ | _
    · have hstep : termStep sentences m t = m ++ [(t, matchingSentences sentences t)] := by
        rw [show termStep sentences m t = setAssoc m t (matchingSentences sentences t)
          from by simp [termStep, hms]]
        exact setAssoc_of_fresh m t _ (hfresh t (List.mem_cons_self _ _))
      rw [hstep, show termEntry sentences t = some (t, matchingSentences sentences t)
        from by simp [termEntry, hms]]
      rw [ih (m ++ [(t, matchingSentences sentences t)]) hnd' ?_]
      · simp
      · intro t' ht'
        simp only [List.map_append, List.mem_append, List.map_cons, List.map_nil,
          List.mem_singleton, not_or]
        exact ⟨hfresh t' (List.mem_cons_of_mem _ ht'),
          fun h => hnotin (h ▸ ht')⟩
    · rw [show termStep sentences m t = m from by simp [termStep, hms],
        show termEntry sentences t = none from by simp [termEntry, hms]]
      exact ih m hnd' (fun t' ht' => hfresh t' (List.mem_cons_of_mem _ ht'))

theorem length_filterMap_termEntry (sentences : List (List Char)) :
    ∀ (ks : List (List Char)),
      (ks.filterMap (termEntry sentences)).length =
        (ks.filter (fun t => !(matchingSentences sentences t).isEmpty)).length := by
  intro ks
  induction ks with
  | nil => rfl
  | cons t rest ih =>
    rw [List.filterMap_cons, List.filter_cons]
    rcases hms : (matchingSentences sentences t).isEmpty with _ | _
    · simp only [show termEntry sentences t = some (t, matchingSentences sentences t)
        from by simp [termEntry, hms], hms]
      simp [ih]
    · simp only [show termEntry sentences t = none
        from by simp [termEntry, hms], hms]
      simp [ih]

/-- C8, corrected: for a duplicate-free key-term list (as
`extractKeyTerms` produces) the number of MCQs equals
`min(10, number of key terms with at least one matching sentence)`;
key terms without a match consume no slot.  With duplicated terms the
JS object collapses them, so the count can be strictly smaller (see the
counterexample). -/
theorem mcq_count_nodup (shuffle : List (List Char) → List (List Char))
    (text : List Char) (ks : List (List Char)) (hnd : ks.Nodup) :
    (generateMCQs shuffle text ks).length =
      min 10 ((ks.filter
        (fun t => !(matchingSentences (splitSentences text) t).isEmpty)).length) := by
  have hassoc : termSentencesAssoc (splitSentences text) ks =
      ks.filterMap (termEntry (splitSentences text)) := by
    have := termSentencesAssoc_eq_filterMap (splitSentences text) ks [] hnd (by simp)
    simpa [termSentencesAssoc] using this
  have hM : ((ks.filter
      (fun t => !(matchingSentences (splitSentences text) t).isEmpty)).length) ≤
        ks.length := List.length_filter_le _ _
  simp only [generateMCQs, List.length_map, List.enum_eq_enumFrom,
    List.enumFrom_length, List.length_take, hassoc,
    length_filterMap_termEntry]
  omega

/-- C8 witness: one matching term out of a duplicate-free list of two. -/
theorem mcq_count_nodup_witness :
    (["cats".data, "dogs".data] : List (List Char)).Nodup ∧
      (generateMCQs id "The cats sit here.".data
          ["cats".data, "dogs".data]).length =
        min 10 (((["cats".data, "dogs".data] : List (List Char)).filter
          (fun t => !(matchingSentences
            (splitSentences "The cats sit here.".data) t).isEmpty)).length) :=
  ⟨by decide,
   mcq_count_nodup id "The cats sit here.".data ["cats".data, "dogs".data] (by decide)⟩

/-- C8 counterexample: the claim quantifies over every key-term list,
but with the duplicated list `["cats", "cats"]` the object keyed by term
collapses the two entries: one MCQ is produced while the claimed count
is `min(10, 2) = 2`. -/
theorem mcq_count_duplicate_counterexample :
    (generateMCQs id "cats here.".data ["cats".data, "cats".data]).length = 1 ∧
      ¬ ((generateMCQs id "cats here.".data ["cats".data, "cats".data]).length =
        min 10 (((["cats".data, "cats".data] : List (List Char)).filter
          (fun t => !(matchingSentences
            (splitSentences "cats here.".data) t).isEmpty)).length)) := by
  constructor <;> decide

/-! ### C1 — a single word repeated 21 times -/

/-- The word `w` repeated `n` times separated by single spaces. -/
def spaceSeparated (w : List Char) : ℕ → List Char
  | 0 => []
  | 1 => w
  | n + 2 => w ++ ' ' :: spaceSeparated w (n + 1)

theorem not_space_of_wordChar {c : Char} (h : isWordChar c = true) :
    isSpaceChar c = false := by
  rcases hsp : isSpaceChar c with _ | _
  · rfl
  · exfalso
    have hc := hsp
    simp only [isSpaceChar, Bool.or_eq_true, beq_iff_eq] at hc
    rcases hc with ((((h' | h') | h') | h') | h') | h' <;> subst h' <;>
      exact absurd h (by decide)

theorem cleanTextOf_append (a b : List Char) :
    cleanTextOf (a ++ b) = cleanTextOf a ++ cleanTextOf b := by
  simp [cleanTextOf, List.filter_append]

theorem cleanTextOf_fixed {w : List Char}
    (hw : ∀ c ∈ w, isWordChar c = true ∧ c.toLower = c) : cleanTextOf w = w := by
  have hmap : w.map Char.toLower = w := by
    have := List.map_congr_left (l := w) (f := Char.toLower) (g := id)
      (fun c hc => (hw c hc).2)
    simpa using this
  rw [cleanTextOf, hmap]
  exact List.filter_eq_self.mpr (fun c hc => by simp [(hw c hc).1])

theorem cleanTextOf_space_cons (rest : List Char) :
    cleanTextOf (' ' :: rest) = ' ' :: cleanTextOf rest := by
  have h1 : Char.toLower ' ' = ' ' := by decide
  have h2 : (isWordChar ' ' || isSpaceChar ' ') = true := by decide
  simp [cleanTextOf, List.filter_cons, h1, h2]

theorem cleanTextOf_spaceSeparated {w : List Char}
    (hw : ∀ c ∈ w, isWordChar c = true ∧ c.toLower = c) :
    ∀ n, cleanTextOf (spaceSeparated w n) = spaceSeparated w n
  | 0 => by simp [spaceSeparated, cleanTextOf]
  | 1 => by rw [spaceSeparated]; exact cleanTextOf_fixed hw
  | n + 2 => by
    rw [spaceSeparated, cleanTextOf_append, cleanTextOf_fixed hw,
      cleanTextOf_space_cons, cleanTextOf_spaceSeparated hw (n + 1)]

theorem splitAux_no_split :
    ∀ (u : List Char), (∀ c ∈ u, isSpaceChar c = false) → ∀ (rest acc : List Char),
      splitAux isSpaceChar (u ++ rest) acc =
        splitAux isSpaceChar rest (u.reverse ++ acc) := by
  intro u
  induction u with
  | nil => intro _ rest acc; simp
  | cons c cs ih =>
    intro h rest acc
    have hc : isSpaceChar c = false := h c (List.mem_cons_self _ _)
    have hstep : splitAux isSpaceChar ((c :: cs) ++ rest) acc =
        splitAux isSpaceChar (cs ++ rest) (c :: acc) := by
      rw [List.cons_append, splitAux, hc]
      simp
    rw [hstep, ih (fun d hd => h d (List.mem_cons_of_mem _ hd)) rest (c :: acc)]
    simp [List.append_assoc]

theorem splitOn1_spaceSeparated {w : List Char}
    (hw' : ∀ c ∈ w, isSpaceChar c = false) :
    ∀ n, splitOn1 isSpaceChar (spaceSeparated w (n + 1)) =
      List.replicate (n + 1) w
  | 0 => by
    show splitAux isSpaceChar (spaceSeparated w 1) [] = [w]
    rw [spaceSeparated, ← List.append_nil w]
    rw [splitAux_no_split w hw' [] []]
    simp [splitAux]
  | n + 1 => by
    show splitAux isSpaceChar (spaceSeparated w (n + 3 - 1)) [] = _
    rw [show n + 3 - 1 = n + 2 from rfl, spaceSeparated,
      splitAux_no_split w hw' _ []]
    have hsp : isSpaceChar ' ' = true := by decide
    simp only [splitAux, hsp, if_true, List.append_nil, List.reverse_reverse]
    rw [show splitAux isSpaceChar (spaceSeparated w (n + 1)) [] =
        splitOn1 isSpaceChar (spaceSeparated w (n + 1)) from rfl,
      splitOn1_spaceSeparated hw' n]
    rfl

theorem wordsOf_spaceSeparated {w : List Char}
    (hw : ∀ c ∈ w, isWordChar c = true ∧ c.toLower = c) (hlen : 3 < w.length) :
    ∀ n, wordsOf (spaceSeparated w (n + 1)) = List.replicate (n + 1) w := by
  intro n
  have hw' : ∀ c ∈ w, isSpaceChar c = false :=
    fun c hc => not_space_of_wordChar (hw c hc).1
  rw [wordsOf, cleanTextOf_spaceSeparated hw, splitOn1_spaceSeparated hw' n]
  refine List.filter_eq_self.mpr (fun u hu => ?_)
  rw [List.eq_of_mem_replicate hu]
  simp only [decide_eq_true_eq]
  omega

theorem foldl_wordStep_replicate {w : List Char} (hstop : w ∉ stopWords)
    (hlen : 3 < w.length) :
    ∀ (n k : ℕ), (List.replicate n w).foldl wordStep [(w, k)] = [(w, k + n)] := by
  intro n
  induction n with
  | zero => intro k; simp
  | succ n ih =>
    intro k
    rw [List.replicate_succ, List.foldl_cons]
    have hstep : wordStep [(w, k)] w = [(w, k + 1)] := by
      rw [wordStep, if_pos ⟨hstop, hlen⟩, bumpAssoc, if_pos rfl]
    rw [hstep, ih (k + 1)]
    have : k + 1 + n = k + (n + 1) := by omega
    rw [this]

theorem wordCountsOf_replicate {w : List Char} (hstop : w ∉ stopWords)
    (hlen : 3 < w.length) :
    wordCountsOf (List.replicate 21 w) = [(w, 21)] := by
  rw [wordCountsOf, List.replicate_succ, List.foldl_cons]
  have hstep : wordStep [] w = [(w, 1)] := by
    rw [wordStep, if_pos ⟨hstop, hlen⟩]; rfl
  rw [hstep, foldl_wordStep_replicate hstop hlen 20 1]

theorem getD_replicate_of_lt {w : List Char} :
    ∀ (n i : ℕ), i < n → (List.replicate n w).getD i [] = w := by
  intro n
  induction n with
  | zero => intro i h; omega
  | succ n ih =>
    intro i h
    rw [List.replicate_succ]
    cases i with
    | zero => rfl
    | succ i => rw [List.getD_cons_succ]; exact ih i (by omega)

theorem bigram_ne_trigram {w : List Char} :
    (w ++ ' ' :: w) ≠ (w ++ ' ' :: w ++ ' ' :: w) := by
  intro h
  have := congrArg List.length h
  simp [List.length_append] at this

theorem word_ne_bigram {w : List Char} : w ≠ w ++ ' ' :: w := by
  intro h
  have := congrArg List.length h
  simp [List.length_append] at this

theorem word_ne_trigram {w : List Char} : w ≠ w ++ ' ' :: w ++ ' ' :: w := by
  intro h
  have := congrArg List.length h
  simp [List.length_append] at this

theorem phraseStep_replicate_mid {w : List Char} (hstop : w ∉ stopWords)
    (hlen : 3 < w.length) (m : List (List Char × ℕ)) (i : ℕ) (hi : i < 19) :
    phraseStep (List.replicate 21 w) m i =
      bumpAssoc (bumpAssoc m (w ++ ' ' :: w) 1) (w ++ ' ' :: w ++ ' ' :: w) 3 := by
  have h0 : (List.replicate 21 w).getD i [] = w :=
    getD_replicate_of_lt 21 i (by omega)
  have h1 : (List.replicate 21 w).getD (i + 1) [] = w :=
    getD_replicate_of_lt 21 (i + 1) (by omega)
  have h2 : (List.replicate 21 w).getD (i + 2) [] = w :=
    getD_replicate_of_lt 21 (i + 2) (by omega)
  simp only [phraseStep, h0, h1, h2, List.length_replicate]
  rw [if_pos ⟨by omega, hlen, hlen, hlen, hstop, hstop⟩,
    if_pos ⟨hlen, hlen, hstop, hstop⟩]

theorem phraseStep_replicate_last {w : List Char} (hstop : w ∉ stopWords)
    (hlen : 3 < w.length) (m : List (List Char × ℕ)) :
    phraseStep (List.replicate 21 w) m 19 = bumpAssoc m (w ++ ' ' :: w) 1 := by
  have h0 : (List.replicate 21 w).getD 19 [] = w :=
    getD_replicate_of_lt 21 19 (by omega)
  have h1 : (List.replicate 21 w).getD 20 [] = w :=
    getD_replicate_of_lt 21 20 (by omega)
  simp only [phraseStep, h0, h1, List.length_replicate]
  rw [if_neg (fun hc => absurd hc.1 (by omega)),
    if_pos ⟨hlen, hlen, hstop, hstop⟩]

theorem foldl_eq_iterate {α β : Type} (f : β → α → β) (g : β → β) :
    ∀ (l : List α) (m : β), (∀ a ∈ l, ∀ acc, f acc a = g acc) →
      l.foldl f m = g^[l.length] m := by
  intro l
  induction l with
  | nil => intro m _; rfl
  | cons a as ih =>
    intro m h
    rw [List.foldl_cons, List.length_cons, Function.iterate_succ_apply,
      show f m a = g m from h a (List.mem_cons_self _ _) m]
    exact ih (g m) (fun a' ha' acc => h a' (List.mem_cons_of_mem _ ha') acc)

theorem bumpPair_iterate {w : List Char} :
    ∀ (n a b : ℕ),
      (fun m => bumpAssoc (bumpAssoc m (w ++ ' ' :: w) 1)
        (w ++ ' ' :: w ++ ' ' :: w) 3)^[n] [(w ++ ' ' :: w, a), (w ++ ' ' :: w ++ ' ' :: w, b)] =
      [(w ++ ' ' :: w, a + n), (w ++ ' ' :: w ++ ' ' :: w, b + 3 * n)] := by
  intro n
  induction n with
  | zero => intro a b; simp
  | succ n ih =>
    intro a b
    rw [Function.iterate_succ_apply]
    have hg : bumpAssoc (bumpAssoc
          [(w ++ ' ' :: w, a), (w ++ ' ' :: w ++ ' ' :: w, b)] (w ++ ' ' :: w) 1)
          (w ++ ' ' :: w ++ ' ' :: w) 3 =
        [(w ++ ' ' :: w, a + 1), (w ++ ' ' :: w ++ ' ' :: w, b + 3)] := by
      rw [bumpAssoc, if_pos rfl, bumpAssoc, if_neg bigram_ne_trigram,
        bumpAssoc, if_pos rfl]
    rw [hg, ih (a + 1) (b + 3)]
    have e1 : a + 1 + n = a + (n + 1) := by omega
    have e2 : b + 3 + 3 * n = b + 3 * (n + 1) := by omega
    rw [e1, e2]

theorem phrasesOf_replicate {w : List Char} (hstop : w ∉ stopWords)
    (hlen : 3 < w.length) :
    phrasesOf (List.replicate 21 w) =
      [(w ++ ' ' :: w, 20), (w ++ ' ' :: w ++ ' ' :: w, 57)] := by
  rw [phrasesOf, List.length_replicate,
    show (21 : ℕ) - 1 = 20 from rfl, List.range_eq_range',
    show (20 : ℕ) = 19 + 1 from rfl, List.range'_1_concat,
    List.foldl_append]
  rw [foldl_eq_iterate (phraseStep (List.replicate 21 w))
    (fun m => bumpAssoc (bumpAssoc m (w ++ ' ' :: w) 1)
      (w ++ ' ' :: w ++ ' ' :: w) 3)
    (List.range' 0 19) []
    (fun i hi acc => by
      refine phraseStep_replicate_mid hstop hlen acc i ?_
      have := List.mem_range'.mp hi
      omega)]
  rw [List.length_range']
  rw [show (19 : ℕ) = 18 + 1 from rfl, Function.iterate_succ_apply]
  have hg0 : bumpAssoc (bumpAssoc [] (w ++ ' ' :: w) 1)
      (w ++ ' ' :: w ++ ' ' :: w) 3 =
      [(w ++ ' ' :: w, 1), (w ++ ' ' :: w ++ ' ' :: w, 3)] := by
    simp [bumpAssoc, bigram_ne_trigram]
  rw [hg0, bumpPair_iterate 18 1 3]
  norm_num
  rw [phraseStep_replicate_last hstop hlen]
  simp [bumpAssoc]

/-- C1, corrected: for a word of lowercase word-characters (length > 3,
not a stop word) repeated 21 times separated by spaces, the extractor
returns exactly three terms: the trigram `w w w` (score 57), the word
itself (score 21) and the bigram `w w` (score 20), in that order — not
only the word, because the bigram/trigram loop also counts the phrases
formed by the repetition. -/
theorem extractKeyTerms_repeated_word (w : List Char)
    (hw : ∀ c ∈ w, isWordChar c = true ∧ c.toLower = c)
    (hlen : 3 < w.length) (hstop : w ∉ stopWords) :
    extractKeyTerms (spaceSeparated w 21) =
      [w ++ ' ' :: w ++ ' ' :: w, w, w ++ ' ' :: w] := by
  have hwords : wordsOf (spaceSeparated w 21) = List.replicate 21 w :=
    wordsOf_spaceSeparated hw hlen 20
  rw [extractKeyTerms]
  rw [hwords, wordCountsOf_replicate hstop hlen, phrasesOf_replicate hstop hlen]
  have hmerge : mergeAssoc [(w, 21)]
      [(w ++ ' ' :: w, 20), (w ++ ' ' :: w ++ ' ' :: w, 57)] =
      [(w, 21), (w ++ ' ' :: w, 20), (w ++ ' ' :: w ++ ' ' :: w, 57)] := by
    simp [mergeAssoc, lookupAssoc, Ne.symm (word_ne_bigram (w := w)),
      Ne.symm (word_ne_trigram (w := w))]
  rw [hmerge]
  have hsort : sortEntriesDesc
      [(w, 21), (w ++ ' ' :: w, 20), (w ++ ' ' :: w ++ ' ' :: w, 57)] =
      [(w ++ ' ' :: w ++ ' ' :: w, 57), (w, 21), (w ++ ' ' :: w, 20)] := by
    simp [sortEntriesDesc, List.insertionSort, List.orderedInsert]
  rw [hsort]
  rfl

/-- C1 witness: the amended statement evaluated at the word `test`. -/
theorem extractKeyTerms_repeated_word_witness :
    ((∀ c ∈ "test".data, isWordChar c = true ∧ c.toLower = c) ∧
      3 < "test".data.length ∧ "test".data ∉ stopWords) ∧
    extractKeyTerms (spaceSeparated "test".data 21) =
      ["test".data ++ ' ' :: "test".data ++ ' ' :: "test".data, "test".data,
       "test".data ++ ' ' :: "test".data] :=
  ⟨⟨by decide, by decide, by decide⟩,
   extractKeyTerms_repeated_word "test".data (by decide) (by decide) (by decide)⟩

/-- C1 counterexample: on `"test"` repeated 21 times the extractor does
not return only `["test"]`; it returns the trigram, the word and the
bigram. -/
theorem extractKeyTerms_single_word_counterexample :
    extractKeyTerms
        ("test test test test test test test test test test test test test test test test test test test test test".data) =
      ["test test test".data, "test".data, "test test".data] ∧
    ¬ (extractKeyTerms
        ("test test test test test test test test test test test test test test test test test test test test test".data) =
      ["test".data]) := by
  constructor <;> decide

/-! ### C6 — summary sentence selection -/

theorem getD_mem {α : Type} (d : α) :
    ∀ (l : List α) (j : ℕ), j < l.length → l.getD j d ∈ l := by
  intro l
  induction l with
  | nil => intro j h; simp at h
  | cons a as ih =>
    intro j h
    cases j with
    | zero => exact List.mem_cons_self _ _
    | succ j =>
      rw [List.getD_cons_succ]
      exact List.mem_cons_of_mem _ (ih j (by simpa using h))

theorem pair_getD_sublist {α : Type} (d : α) :
    ∀ (l : List α) (i j : ℕ), i < j → j < l.length →
      List.Sublist [l.getD i d, l.getD j d] l := by
  intro l
  induction l with
  | nil => intro i j _ h; simp at h
  | cons a as ih =>
    intro i j hij hj
    cases i with
    | zero =>
      cases j with
      | zero => omega
      | succ j =>
        simp only [List.getD_cons_zero, List.getD_cons_succ]
        exact List.Sublist.cons₂ _
          (List.singleton_sublist.mpr (getD_mem d as j (by simpa using hj)))
    | succ i =>
      cases j with
      | zero => omega
      | succ j =>
        simp only [List.getD_cons_succ]
        exact (ih i j (by omega) (by simpa using hj)).cons _

theorem mem_take_of_pair_sublist {α : Type} :
    ∀ (l : List α) (k : ℕ) (x y : α), l.Nodup → List.Sublist [x, y] l →
      y ∈ l.take k → x ∈ l.take k := by
  intro l
  induction l with
  | nil => intro k x y _ _ hy; simp at hy
  | cons a as ih =>
    intro k x y hnd hs hy
    obtain ⟨hnotin, hnd'⟩ := List.nodup_cons.mp hnd
    cases k with
    | zero => simp at hy
    | succ k =>
      rw [List.take_succ_cons] at hy ⊢
      cases hs with
      | cons₂ _ h => exact List.mem_cons_self _ _
      | cons _ h =>
        rcases List.mem_cons.mp hy with hya | hyt
        · exfalso
          have hyas : y ∈ as := h.subset (by simp)
          exact hnotin (hya ▸ hyas)
        · exact List.mem_cons_of_mem _ (ih k x y hnd' h hyt)

theorem enumSwap_getD (cs : List ℚ) (i : ℕ) (hi : i < cs.length) :
    (cs.enum.map (fun p => (p.2, p.1))).getD i (0, 0) = (cs.getD i 0, i) := by
  have hlen : i < (cs.enum.map (fun p => (p.2, p.1))).length := by
    simpa [List.enum_length] using hi
  rw [List.getD_eq_getElem _ _ hlen, List.getElem_map, List.getD_eq_getElem _ _ hi]
  simp [List.getElem_enum]

theorem enumSwap_mem_eq (cs : List ℚ) (q : ℚ × ℕ)
    (hq : q ∈ cs.enum.map (fun p => (p.2, p.1))) :
    q = (cs.getD q.2 0, q.2) ∧ q.2 < cs.length := by
  obtain ⟨e, he, hqe⟩ := List.mem_map.mp hq
  have h1 := List.mem_enum_iff_getElem?.mp he
  obtain ⟨hlt, hget⟩ := List.getElem?_eq_some_iff.mp h1
  subst hqe
  refine ⟨?_, hlt⟩
  have hgd : cs.getD e.1 0 = e.2 := by rw [List.getD_eq_getElem _ _ hlt, hget]
  rw [hgd]

theorem enumSwap_nodup (cs : List ℚ) :
    (cs.enum.map (fun p => (p.2, p.1))).Nodup := by
  have henum : cs.enum.Nodup := by
    have hfst : cs.enum.map Prod.fst = List.range' 0 cs.length :=
      List.enumFrom_map_fst 0 cs
    exact List.Nodup.of_map Prod.fst (hfst ▸ List.nodup_range' 0 cs.length)
  refine henum.map ?_
  intro a b hab
  cases a; cases b
  simp only [Prod.mk.injEq] at hab ⊢
  exact ⟨hab.2, hab.1⟩

theorem select_spec (cs : List ℚ) (k : ℕ) :
    ((((((cs.enum.map (fun p => (p.2, p.1))).insertionSort
        (fun x y => y.1 ≤ x.1)).take k).map (fun p => p.2)).insertionSort
        (· ≤ ·)).length = min k cs.length) ∧
    List.Pairwise (· < ·)
      (((((cs.enum.map (fun p => (p.2, p.1))).insertionSort
        (fun x y => y.1 ≤ x.1)).take k).map (fun p => p.2)).insertionSort (· ≤ ·)) ∧
    (∀ i j : ℕ, i < j → j < cs.length → cs.getD i 0 = cs.getD j 0 →
      j ∈ ((((cs.enum.map (fun p => (p.2, p.1))).insertionSort
        (fun x y => y.1 ≤ x.1)).take k).map (fun p => p.2)).insertionSort (· ≤ ·) →
      i ∈ ((((cs.enum.map (fun p => (p.2, p.1))).insertionSort
        (fun x y => y.1 ≤ x.1)).take k).map (fun p => p.2)).insertionSort (· ≤ ·)) := by
  have hxs_len : (cs.enum.map (fun p => (p.2, p.1))).length = cs.length := by
    simp [List.enum_length]
  have hperm := List.perm_insertionSort (fun x y : ℚ × ℕ => y.1 ≤ x.1)
    (cs.enum.map (fun p => (p.2, p.1)))
  have hsorted_nodup :
      ((cs.enum.map (fun p => (p.2, p.1))).insertionSort
        (fun x y => y.1 ≤ x.1)).Nodup :=
    hperm.symm.nodup (enumSwap_nodup cs)
  have hsorted_char : ∀ q ∈ (cs.enum.map (fun p => (p.2, p.1))).insertionSort
      (fun x y => y.1 ≤ x.1), q = (cs.getD q.2 0, q.2) ∧ q.2 < cs.length :=
    fun q hq => enumSwap_mem_eq cs q (hperm.mem_iff.mp hq)
  refine ⟨?_, ?_, ?_⟩
  · rw [List.length_insertionSort, List.length_map, List.length_take,
      List.length_insertionSort, hxs_len]
  · have htake_nodup :
        (((cs.enum.map (fun p => (p.2, p.1))).insertionSort
          (fun x y => y.1 ≤ x.1)).take k).Nodup :=
      (List.take_sublist _ _).nodup hsorted_nodup
    have hmap_nodup :
        ((((cs.enum.map (fun p => (p.2, p.1))).insertionSort
          (fun x y => y.1 ≤ x.1)).take k).map (fun p => p.2)).Nodup := by
      refine htake_nodup.map_on ?_
      intro p hp q hq hpq
      have hp' := (hsorted_char p (List.mem_of_mem_take hp)).1
      have hq' := (hsorted_char q (List.mem_of_mem_take hq)).1
      rw [hp', hq']
      simp only at hpq
      rw [hpq]
    have hsel_nodup := (List.perm_insertionSort (· ≤ ·) _).symm.nodup hmap_nodup
    have hsel_sorted := List.sorted_insertionSort (· ≤ ·)
      ((((cs.enum.map (fun p => (p.2, p.1))).insertionSort
        (fun x y => y.1 ≤ x.1)).take k).map (fun p => p.2))
    exact (hsel_sorted.and hsel_nodup).imp (fun hab => lt_of_le_of_ne hab.1 hab.2)
  · intro i j hij hj heq hjsel
    rw [List.mem_insertionSort] at hjsel
    obtain ⟨q, hq_take, hq2⟩ := List.mem_map.mp hjsel
    have hq_char := (hsorted_char q (List.mem_of_mem_take hq_take)).1
    have hqy : q = (cs.getD j 0, j) := by rw [hq_char, hq2]
    have hpair : List.Sublist [(cs.getD i 0, i), (cs.getD j 0, j)]
        (cs.enum.map (fun p => (p.2, p.1))) := by
      have hsub := pair_getD_sublist (0, 0) (cs.enum.map (fun p => (p.2, p.1)))
        i j hij (by rw [hxs_len]; exact hj)
      rwa [enumSwap_getD cs i (by omega), enumSwap_getD cs j hj] at hsub
    have hpair_sorted := List.pair_sublist_insertionSort
      (r := fun x y : ℚ × ℕ => y.1 ≤ x.1)
      (a := (cs.getD i 0, i)) (b := (cs.getD j 0, j))
      (le_of_eq heq.symm) hpair
    have hx_take := mem_take_of_pair_sublist _ k _ _ hsorted_nodup hpair_sorted
      (hqy ▸ hq_take)
    rw [List.mem_insertionSort]
    exact List.mem_map.mpr ⟨(cs.getD i 0, i), hx_take, rfl⟩

/-- C6, confirmed: for a text with more than 3 sentences, the summary
selects exactly `max(ceil(0.25 * N), 3)` sentence indexes, emits them in
strictly ascending original order, and resolves score ties in favour of
the earlier index (the stable descending sort keeps the
earlier-and-equal-scored sentence ahead, so it enters the selected
prefix first); the produced summary is the join of the selected
sentences. -/
theorem summary_selection_spec (ks : List (List Char)) (text : List Char)
    (h : 3 < (splitSentences text).length) :
    (selectedIndexes ks (splitSentences text)).length =
        max (⌈((splitSentences text).length : ℚ) * (25 / 100)⌉.toNat) 3 ∧
      List.Pairwise (· < ·) (selectedIndexes ks (splitSentences text)) ∧
      (∀ i j : ℕ, i < j → j < (splitSentences text).length →
        (combinedScores ks (splitSentences text)).getD i 0 =
          (combinedScores ks (splitSentences text)).getD j 0 →
        j ∈ selectedIndexes ks (splitSentences text) →
        i ∈ selectedIndexes ks (splitSentences text)) ∧
      generateSummary ks text =
        joinWith ". ".data
          ((selectedIndexes ks (splitSentences text)).map
            (fun i => (splitSentences text).getD i [])) ++ ".".data := by
  have hcs_len : (combinedScores ks (splitSentences text)).length =
      (splitSentences text).length := by
    simp [combinedScores, List.enum_length]
  have hspec := select_spec (combinedScores ks (splitSentences text))
    (summaryLength (splitSentences text).length)
  have hkN : summaryLength (splitSentences text).length ≤
      (splitSentences text).length := by
    have h3N : 3 ≤ (splitSentences text).length := by omega
    have hceil : (⌈((splitSentences text).length : ℚ) * (25 / 100)⌉).toNat ≤
        (splitSentences text).length := by
      rw [Int.toNat_le]
      refine Int.ceil_le.mpr ?_
      push_cast
      have hpos : (0 : ℚ) ≤ ((splitSentences text).length : ℚ) :=
        Nat.cast_nonneg _
      linarith
    exact max_le hceil h3N
  refine ⟨?_, ?_, ?_, ?_⟩
  · show (selectedIndexes ks (splitSentences text)).length = _
    have h1 : (selectedIndexes ks (splitSentences text)).length =
        min (summaryLength (splitSentences text).length)
          (combinedScores ks (splitSentences text)).length := hspec.1
    rw [h1, hcs_len, min_eq_left hkN]
    rfl
  · exact hspec.2.1
  · intro i j hij hj heq hjsel
    exact hspec.2.2 i j hij (hcs_len ▸ hj) heq hjsel
  · show generateSummary ks text = _
    rw [generateSummary, if_neg (by omega)]

/-- C6 witness: a five-sentence text with no key terms selects indexes
`0, 1, 2`. -/
theorem summary_selection_spec_witness :
    (3 < (splitSentences "Aaaa bbb. Cc dd. Ee ff. Gg hh. Ii jj.".data).length) ∧
    ((selectedIndexes []
        (splitSentences "Aaaa bbb. Cc dd. Ee ff. Gg hh. Ii jj.".data)).length =
          max (⌈((splitSentences "Aaaa bbb. Cc dd. Ee ff. Gg hh. Ii jj.".data).length :
            ℚ) * (25 / 100)⌉.toNat) 3 ∧
      List.Pairwise (· < ·)
        (selectedIndexes []
          (splitSentences "Aaaa bbb. Cc dd. Ee ff. Gg hh. Ii jj.".data)) ∧
      (∀ i j : ℕ, i < j →
        j < (splitSentences "Aaaa bbb. Cc dd. Ee ff. Gg hh. Ii jj.".data).length →
        (combinedScores []
            (splitSentences "Aaaa bbb. Cc dd. Ee ff. Gg hh. Ii jj.".data)).getD i 0 =
          (combinedScores []
            (splitSentences "Aaaa bbb. Cc dd. Ee ff. Gg hh. Ii jj.".data)).getD j 0 →
        j ∈ selectedIndexes []
            (splitSentences "Aaaa bbb. Cc dd. Ee ff. Gg hh. Ii jj.".data) →
        i ∈ selectedIndexes []
            (splitSentences "Aaaa bbb. Cc dd. Ee ff. Gg hh. Ii jj.".data)) ∧
      generateSummary [] "Aaaa bbb. Cc dd. Ee ff. Gg hh. Ii jj.".data =
        joinWith ". ".data
          ((selectedIndexes []
            (splitSentences "Aaaa bbb. Cc dd. Ee ff. Gg hh. Ii jj.".data)).map
            (fun i =>
              (splitSentences "Aaaa bbb. Cc dd. Ee ff. Gg hh. Ii jj.".data).getD
                i [])) ++ ".".data) :=
  ⟨by decide,
   summary_selection_spec [] "Aaaa bbb. Cc dd. Ee ff. Gg hh. Ii jj.".data (by decide)⟩

end ExamHelper
